import Mathlib

/-!
# Bubble schema conversion engine — verification development

Shallow embedding of the schema conversion engine of the Bubble schema
extractor server (main source file, referred to below as `part_000`;
the repository also ships a legacy variant `api-server.js`).

The engine turns a raw type map (the JSON object found in a Bubble app's
`app.user_types`) into one of three textual outputs:
* DBML relational schema (`convertToDBML`),
* Mermaid ER diagram (`convertToMermaid`),
* raw structured JSON (`JSON.stringify(dataTypes, null, 2)`).

Dispatch on the `format` query parameter: `mermaid`, `json`, anything else
falls back to DBML.
-/

/-- Raw per-field description, one entry of a type's field map.
`v` models the declared-type key `%v` (`none` when the key is absent);
`del` models the truthiness of the soft-delete flag `%del`
(`false` both when the key is absent and when it is falsy). -/
structure RawFieldInfo where
  v : Option String
  del : Bool
deriving DecidableEq

/-- Raw per-type description. `f3` models the field map stored under the
fixed key `%f3` (`none` when the key is absent; the code falls back to `{}`
via `tableInfo['%f3'] || {}`). The list order is the JS object key order. -/
structure RawTypeInfo where
  f3 : Option (List (String × RawFieldInfo))
deriving DecidableEq

/-- Raw type map: association of type names to raw type infos, in the
key order of the JS object `dataTypes`. -/
abbrev RawTypeMap := List (String × RawTypeInfo)

/-- Truncation at the first occurrence of a marker, JS
`idx = s.indexOf(pat); if (idx !== -1) s = s.substring(0, idx)`:
`truncAt pat s` is `s` cut before the first occurrence of `pat`, and `s`
unchanged when `pat` does not occur. -/
def truncAt (pat : List Char) : List Char → List Char
  | [] => []
  | c :: rest => if pat <+: c :: rest then [] else c :: truncAt pat rest

/-- The `typeSuffixes` lookup table of `cleanFieldName` (part_000 lines 169-176):
maps a declared type to the `_`-suffix stripped from field names. -/
def typeSuffixes (fieldType : String) : Option String :=
  if fieldType = "text" then some "_text"
  else if fieldType = "number" then some "_number"
  else if fieldType = "date" then some "_date"
  else if fieldType = "boolean" then some "_boolean"
  else if fieldType = "file" then some "_file"
  else if fieldType = "image" then some "_image"
  else none

/-- Final step of `cleanFieldName` (part_000 lines 178-181), JS
`if (suffix && cleanName.endsWith(suffix)) cleanName = cleanName.slice(0, -suffix.length)`:
strips the declared type's `_`-suffix from the end of the truncated name. -/
def stripTypeSuffix (fieldType : String) (cs : List Char) : List Char :=
  match typeSuffixes fieldType with
  | some suf => if suf.data <:+ cs then cs.take (cs.length - suf.data.length) else cs
  | none => cs

/-- Function `cleanFieldName` (part_000 lines 145-184): reconstructs a clean
field name from a raw Bubble field key. Truncates at the first occurrence of
`_option`, then `_custom`, then `_geographic`; finally strips a trailing
type suffix when the declared type has one (`typeSuffixes`). Returns the
name unchanged when the declared type or the name is empty
(JS guard `if (!fieldType || !fieldName) return fieldName`). -/
def cleanFieldName (fieldName fieldType : String) : String :=
  if fieldType = "" || fieldName = "" then fieldName
  else
    ⟨stripTypeSuffix fieldType
      (truncAt "_geographic".data
        (truncAt "_custom".data
          (truncAt "_option".data fieldName.data)))⟩

/-- One iteration of the field loop of `convertToDBML` (part_000 lines 203-240):
the chunk of DBML text the field appends to the accumulator (`""` when the
loop `continue`s: deleted field, absent/empty declared type, `list.` type). -/
def dbmlField (fieldName : String) (fieldInfo : RawFieldInfo) : String :=
  if fieldInfo.del then ""   -- if (fieldInfo['%del']) continue
  else
    match fieldInfo.v with
    | none => ""             -- if (!fieldType) continue
    | some fieldType =>
      if fieldType = "" then ""
      else
        let cleanName := cleanFieldName fieldName fieldType
        if "custom.".data <+: fieldType.data then
          -- relatedType = fieldType.replace('custom.', ''), first occurrence at 0
          let relatedType : String := ⟨fieldType.data.drop 7⟩
          "  " ++ cleanName ++ " text [ref: > " ++ relatedType ++ "._id]\n"
        else if fieldType = "user" then
          "  " ++ cleanName ++ " text [ref: > user._id]\n"
        else if "list.".data <+: fieldType.data then ""
        else
          let dbType := if fieldType = "number" then "numeric"
            else if fieldType = "date" then "timestamp"
            else if fieldType = "boolean" then "boolean"
            else "text"
          "  " ++ cleanName ++ " " ++ dbType ++ "\n"

/-- The field map of a raw type info: `tableInfo['%f3'] || {}`. -/
def fieldsOf (ti : RawTypeInfo) : List (String × RawFieldInfo) :=
  ti.f3.getD []

/-- One iteration of the table loop of `convertToDBML` (part_000 lines 191-243):
table header with the three implicit columns, the field chunks in key order,
closing brace. -/
def dbmlTable (tableName : String) (ti : RawTypeInfo) : String :=
  (fieldsOf ti).foldl (fun acc p => acc ++ dbmlField p.1 p.2)
    ("Table " ++ tableName ++ " \x7b\n  _id text [pk]\n  Created_Date timestamp\n  Modified_Date timestamp\n")
  ++ "\x7d\n\n"

/-- Function `convertToDBML` (part_000 lines 186-246): DBML header then one table
block per type, in the key order of the raw map. -/
def convertToDBML (dataTypes : RawTypeMap) : String :=
  dataTypes.foldl (fun acc p => acc ++ dbmlTable p.1 p.2)
    "// Bubble App Database Schema\n\n"

/-- One iteration of the field loop of `convertToMermaid` (part_000 lines
262-287). Note: unlike the DBML renderer there is no `list.` skip — a
`list.`-typed field falls through to the scalar branch and renders as
`string`. -/
def mermaidField (fieldName : String) (fieldInfo : RawFieldInfo) : String :=
  if fieldInfo.del then ""
  else
    match fieldInfo.v with
    | none => ""
    | some fieldType =>
      if fieldType = "" then ""
      else
        let cleanName := cleanFieldName fieldName fieldType
        let dbType := if fieldType = "number" then "int"
          else if fieldType = "date" then "date"
          else if fieldType = "boolean" then "bool"
          else "string"
        "    " ++ dbType ++ " " ++ cleanName ++ "\n"

/-- One iteration of the table loop of `convertToMermaid` (part_000 lines
253-290): entity header, field chunks, closing brace. No implicit columns. -/
def mermaidTable (tableName : String) (ti : RawTypeInfo) : String :=
  (fieldsOf ti).foldl (fun acc p => acc ++ mermaidField p.1 p.2)
    ("  " ++ tableName ++ " \x7b\n")
  ++ "  \x7d\n"

/-- Function `convertToMermaid` (part_000 lines 248-293). -/
def convertToMermaid (dataTypes : RawTypeMap) : String :=
  dataTypes.foldl (fun acc p => acc ++ mermaidTable p.1 p.2) "erDiagram\n"

/-! ## JSON values and the raw renderer

The `json` format branch of the endpoint returns
`JSON.stringify(dataTypes, null, 2)`: the parsed `app.user_types` object
serialized back with 2-space indentation. We model JSON values as they occur
in a raw type map (§3 of the data-model contract: nested objects whose leaf
values are strings and booleans), keeping object key order. -/

mutual
/-- JSON value of a raw type map: string, boolean, or object. -/
inductive Jval where
  | str (s : String)
  | bool (b : Bool)
  | obj (members : Jmembers)

/-- Ordered members of a JSON object. -/
inductive Jmembers where
  | nil
  | cons (key : String) (val : Jval) (rest : Jmembers)
end

/-- Build `Jmembers` from an association list. -/
def Jmembers.ofList : List (String × Jval) → Jmembers
  | [] => .nil
  | (k, v) :: rest => .cons k v (Jmembers.ofList rest)

/-- Hex digit character used by `JSON.stringify` in `\u00xx` escapes
(lowercase). -/
def hexDigit (n : Nat) : Char :=
  if n < 10 then Char.ofNat (48 + n) else Char.ofNat (87 + n)

/-- The escape `JSON.stringify` applies to one character inside a string
literal: `\"`, `\\`, the named control escapes `\b \t \n \f \r`, `\u00xx`
for the remaining control characters, the character itself otherwise. -/
def escapeChar (c : Char) : List Char :=
  if c = '"' then ['\\', '"']
  else if c = '\\' then ['\\', '\\']
  else if c = Char.ofNat 8 then ['\\', 'b']
  else if c = '\t' then ['\\', 't']
  else if c = '\n' then ['\\', 'n']
  else if c = Char.ofNat 12 then ['\\', 'f']
  else if c = '\r' then ['\\', 'r']
  else if c.toNat < 32 then
    ['\\', 'u', '0', '0', hexDigit (c.toNat / 16), hexDigit (c.toNat % 16)]
  else [c]

/-- Escaped body of a JSON string literal. -/
def escapeString (s : List Char) : List Char :=
  (s.map escapeChar).flatten

/-- Indentation of `n` spaces, as printed by `JSON.stringify` with
indent argument 2. -/
def indentChars (n : Nat) : List Char :=
  List.replicate n ' '

mutual
/-- Text of `JSON.stringify(v, null, 2)` at nesting depth `d`: strings quoted
and escaped, booleans as `true`/`false`, a bare brace pair for the empty
object, and one member per line at indentation `2*(d+1)` otherwise. -/
def printVal : Jval → Nat → List Char
  | .str s, _ => '"' :: (escapeString s.data ++ ['"'])
  | .bool true, _ => ['t', 'r', 'u', 'e']
  | .bool false, _ => ['f', 'a', 'l', 's', 'e']
  | .obj .nil, _ => ['{', '}']
  | .obj (.cons k v rest), d =>
      '{' :: '\n' ::
        (printMembers (.cons k v rest) (d + 1) ++
          '\n' :: (indentChars (2 * d) ++ ['}']))

/-- The member lines of a non-empty object at depth `d`, separated by `,\n`. -/
def printMembers : Jmembers → Nat → List Char
  | .nil, _ => []
  | .cons k v .nil, d =>
      indentChars (2 * d) ++
        '"' :: (escapeString k.data ++ '"' :: ':' :: ' ' :: printVal v d)
  | .cons k v (.cons k2 v2 r), d =>
      (indentChars (2 * d) ++
        '"' :: (escapeString k.data ++ '"' :: ':' :: ' ' :: printVal v d)) ++
        ',' :: '\n' :: printMembers (.cons k2 v2 r) d
end

/-- The raw renderer: `JSON.stringify(dataTypes, null, 2)` (part_000 line 99). -/
def jsonStringify (v : Jval) : String :=
  ⟨printVal v 0⟩

/-- JSON image of a raw field info: the `%v` key when present, then the
`%del` flag. -/
def fieldInfoToJval (fi : RawFieldInfo) : Jval :=
  .obj (Jmembers.ofList
    ((match fi.v with
      | some t => [("%v", Jval.str t)]
      | none => []) ++ [("%del", Jval.bool fi.del)]))

/-- JSON image of a raw type info: the `%f3` field map when present. -/
def typeInfoToJval (ti : RawTypeInfo) : Jval :=
  match ti.f3 with
  | some fs =>
      .obj (.cons "%f3"
        (.obj (Jmembers.ofList (fs.map fun p => (p.1, fieldInfoToJval p.2)))) .nil)
  | none => .obj .nil

/-- JSON image of a raw type map. -/
def toJval (m : RawTypeMap) : Jval :=
  .obj (Jmembers.ofList (m.map fun p => (p.1, typeInfoToJval p.2)))

/-- The format dispatch of `app.get('/api/schema/:input')` (part_000 lines
95-104): `mermaid` and `json` select their renderers, every other format
token falls through to `convertToDBML`. -/
def renderSchema (format : String) (dataTypes : RawTypeMap) : String :=
  if format = "mermaid" then convertToMermaid dataTypes
  else if format = "json" then jsonStringify (toJval dataTypes)
  else convertToDBML dataTypes

/-! ## A JSON parser

Reference implementation of `JSON.parse` for the value grammar above, used
to state the raw renderer's round-trip property. -/

/-- JSON insignificant whitespace. -/
def isWsChar (c : Char) : Bool :=
  c = ' ' || c = '\n' || c = '\t' || c = '\r'

/-- Drop leading insignificant whitespace. -/
def skipWs : List Char → List Char
  | [] => []
  | c :: rest => if isWsChar c then skipWs rest else c :: rest

/-- Value of a hex digit character. -/
def hexVal (c : Char) : Option Nat :=
  if 48 ≤ c.toNat ∧ c.toNat ≤ 57 then some (c.toNat - 48)
  else if 97 ≤ c.toNat ∧ c.toNat ≤ 102 then some (c.toNat - 87)
  else if 65 ≤ c.toNat ∧ c.toNat ≤ 70 then some (c.toNat - 55)
  else none

/-- Decoded character of a single-character escape sequence. -/
def unescapeChar (e : Char) : Option Char :=
  if e = '"' then some '"'
  else if e = '\\' then some '\\'
  else if e = '/' then some '/'
  else if e = 'b' then some (Char.ofNat 8)
  else if e = 't' then some '\t'
  else if e = 'n' then some '\n'
  else if e = 'f' then some (Char.ofNat 12)
  else if e = 'r' then some '\r'
  else none

/-- Parse the body of a string literal after the opening quote; returns the
decoded characters and the input after the closing quote. -/
def parseStringBody : List Char → Option (List Char × List Char)
  | [] => none
  | c :: rest =>
    if c = '"' then some ([], rest)
    else if c = '\\' then
      match rest with
      | 'u' :: h1 :: h2 :: h3 :: h4 :: rest2 =>
        match hexVal h1, hexVal h2, hexVal h3, hexVal h4 with
        | some a, some b, some c2, some d2 =>
          match parseStringBody rest2 with
          | some (cs, r) => some (Char.ofNat (4096 * a + 256 * b + 16 * c2 + d2) :: cs, r)
          | none => none
        | _, _, _, _ => none
      | e :: rest2 =>
        match unescapeChar e with
        | some u =>
          match parseStringBody rest2 with
          | some (cs, r) => some (u :: cs, r)
          | none => none
        | none => none
      | [] => none
    else
      match parseStringBody rest with
      | some (cs, r) => some (c :: cs, r)
      | none => none

mutual
/-- Parse one JSON value (fuelled recursive descent). -/
def parseVal : Nat → List Char → Option (Jval × List Char)
  | 0, _ => none
  | fuel + 1, s =>
    match skipWs s with
    | '"' :: rest =>
      match parseStringBody rest with
      | some (cs, r) => some (.str ⟨cs⟩, r)
      | none => none
    | 't' :: 'r' :: 'u' :: 'e' :: rest => some (.bool true, rest)
    | 'f' :: 'a' :: 'l' :: 's' :: 'e' :: rest => some (.bool false, rest)
    | '{' :: rest =>
      match skipWs rest with
      | '}' :: r => some (.obj .nil, r)
      | r2 =>
        match parseMembers fuel r2 with
        | some (ms, r3) =>
          match skipWs r3 with
          | '}' :: r4 => some (.obj ms, r4)
          | _ => none
        | none => none
    | _ => none

/-- Parse a non-empty member list: `"key": value` pairs separated by commas. -/
def parseMembers : Nat → List Char → Option (Jmembers × List Char)
  | 0, _ => none
  | fuel + 1, s =>
    match skipWs s with
    | '"' :: rest =>
      match parseStringBody rest with
      | some (kcs, r1) =>
        match skipWs r1 with
        | ':' :: r2 =>
          match parseVal fuel r2 with
          | some (v, r3) =>
            match skipWs r3 with
            | ',' :: r4 =>
              match parseMembers fuel r4 with
              | some (ms, r5) => some (.cons ⟨kcs⟩ v ms, r5)
              | none => none
            | r4 => some (.cons ⟨kcs⟩ v .nil, r4)
          | none => none
        | _ => none
      | none => none
    | _ => none
end

/-- Reference `JSON.parse` for the value grammar above: parse one value,
accept only trailing whitespace. -/
def jsonParse (s : String) : Option Jval :=
  match parseVal (s.length + 1) s.data with
  | some (v, rest) => if skipWs rest = [] then some v else none
  | none => none

/-! ## Properties of the field-name normalizer -/

theorem pre_truncAt (pat : List Char) : ∀ s : List Char, truncAt pat s <+: s
  | [] => List.prefix_refl []
  | c :: rest => by
    unfold truncAt
    split
    · exact List.nil_prefix
    · obtain ⟨t, ht⟩ := pre_truncAt pat rest
      exact ⟨t, by rw [List.cons_append, ht]⟩

theorem truncAt_eq_of_no_occ (pat : List Char) :
    ∀ s : List Char, ¬ pat <:+: s → truncAt pat s = s
  | [], _ => rfl
  | c :: rest, h => by
    unfold truncAt
    rw [if_neg fun hp => h hp.isInfix]
    rw [truncAt_eq_of_no_occ pat rest fun hi => h (hi.trans (List.suffix_cons c rest).isInfix)]

theorem no_occ_truncAt (pat : List Char) (hne : pat ≠ []) :
    ∀ s : List Char, ¬ pat <:+: truncAt pat s
  | [], h => hne (List.eq_nil_of_infix_nil h)
  | c :: rest, h => by
    revert h
    unfold truncAt
    split
    · exact fun h => hne (List.eq_nil_of_infix_nil h)
    · intro h
      rcases List.infix_cons_iff.mp h with hp | hi
      · next hnp =>
          obtain ⟨t, ht⟩ := hp
          obtain ⟨t', ht'⟩ := pre_truncAt pat rest
          exact hnp ⟨t ++ t', by rw [← List.append_assoc, ht, List.cons_append, ht']⟩
      · exact no_occ_truncAt pat hne rest hi

theorem no_occ_of_pre {pat l l' : List Char} (hp : l' <+: l) (h : ¬ pat <:+: l) :
    ¬ pat <:+: l' :=
  fun hi => h (hi.trans hp.isInfix)

theorem pre_stripTypeSuffix (fieldType : String) (cs : List Char) :
    stripTypeSuffix fieldType cs <+: cs := by
  unfold stripTypeSuffix
  rcases typeSuffixes fieldType with _ | suf
  · exact List.prefix_refl cs
  · simp only []
    split
    · exact List.take_prefix _ cs
    · exact List.prefix_refl cs

/-- The claim "the normalizer never returns the empty string, falling back to
the pre-truncation name" fails: `cleanFieldName` has no emptiness guard, and
on the non-empty raw name `_custom` with declared type `text` the `_custom`
truncation strips the whole name, so the empty string is returned rather
than the pre-truncation name. -/
theorem cleanFieldName_can_be_empty :
    cleanFieldName "_custom" "text" = "" ∧ ("_custom" : String) ≠ "" := by
  constructor
  · rfl
  · decide

/-- C4 (amended): the normalizer only ever truncates — its result is a
(possibly empty) prefix of the raw field name. There is no guard restoring
the pre-truncation name when everything is stripped. -/
theorem cleanFieldName_pre_of_name (fieldName fieldType : String) :
    (cleanFieldName fieldName fieldType).data <+: fieldName.data := by
  unfold cleanFieldName
  split
  · exact List.prefix_refl _
  · have h1 := pre_truncAt "_option".data fieldName.data
    have h2 := pre_truncAt "_custom".data (truncAt "_option".data fieldName.data)
    have h3 := pre_truncAt "_geographic".data
      (truncAt "_custom".data (truncAt "_option".data fieldName.data))
    have h4 := pre_stripTypeSuffix fieldType
      (truncAt "_geographic".data
        (truncAt "_custom".data (truncAt "_option".data fieldName.data)))
    exact h4.trans (h3.trans (h2.trans h1))

/-- Counterexample to C5 as stated: normalization is not idempotent. On the
raw name `a_text_text` with declared type `text` the first application
strips one `_text` suffix (giving `a_text`), and a second application
strips another one (giving `a`). -/
theorem cleanFieldName_not_idempotent :
    cleanFieldName (cleanFieldName "a_text_text" "text") "text" ≠
      cleanFieldName "a_text_text" "text" := by
  decide

/-- C5 (amended): normalization is idempotent whenever the normalized name
does not itself end in the declared type's suffix (the qualifier
truncations never re-fire on a normalized name); when it does end in the
suffix, a second application strips the suffix again. -/
theorem cleanFieldName_idem_of_no_suffix (x t : String)
    (h : ∀ suf, typeSuffixes t = some suf → ¬ suf.data <:+ (cleanFieldName x t).data) :
    cleanFieldName (cleanFieldName x t) t = cleanFieldName x t := by
  by_cases ht : t = ""
  · subst ht
    simp [cleanFieldName]
  · by_cases hx : x = ""
    · subst hx
      simp [cleanFieldName]
    · have hguard : (t = "" || x = "") = false := by simp [ht, hx]
      have hy : cleanFieldName x t =
          ⟨stripTypeSuffix t
            (truncAt "_geographic".data
              (truncAt "_custom".data
                (truncAt "_option".data x.data)))⟩ := by
        unfold cleanFieldName
        rw [if_neg (by simp [hguard])]
      by_cases hy0 : cleanFieldName x t = ""
      · rw [hy0]
        simp [cleanFieldName]
      · have hp3 : (cleanFieldName x t).data <+:
            truncAt "_geographic".data
              (truncAt "_custom".data (truncAt "_option".data x.data)) := by
          rw [hy]
          exact pre_stripTypeSuffix t _
        have hp2 : (cleanFieldName x t).data <+:
            truncAt "_custom".data (truncAt "_option".data x.data) :=
          hp3.trans (pre_truncAt _ _)
        have hp1 : (cleanFieldName x t).data <+: truncAt "_option".data x.data :=
          hp2.trans (pre_truncAt _ _)
        have e1 : truncAt "_option".data (cleanFieldName x t).data =
            (cleanFieldName x t).data :=
          truncAt_eq_of_no_occ _ _
            (no_occ_of_pre hp1 (no_occ_truncAt _ (by decide) x.data))
        have e2 : truncAt "_custom".data (cleanFieldName x t).data =
            (cleanFieldName x t).data :=
          truncAt_eq_of_no_occ _ _
            (no_occ_of_pre hp2 (no_occ_truncAt _ (by decide) _))
        have e3 : truncAt "_geographic".data (cleanFieldName x t).data =
            (cleanFieldName x t).data :=
          truncAt_eq_of_no_occ _ _
            (no_occ_of_pre hp3 (no_occ_truncAt _ (by decide) _))
        have e4 : stripTypeSuffix t (cleanFieldName x t).data =
            (cleanFieldName x t).data := by
          unfold stripTypeSuffix
          rcases hs : typeSuffixes t with _ | suf
          · rfl
          · simp only []
            rw [if_neg (h suf hs)]
        conv_lhs => rw [cleanFieldName]
        rw [if_neg (by simp [ht, hy0])]
        rw [e1, e2, e3, e4]

/-- Concrete instance of `cleanFieldName_idem_of_no_suffix`: on `title` with
declared type `text` the normalized name `title` does not end in `_text`,
and renormalizing leaves it unchanged. -/
theorem cleanFieldName_idem_witness :
    cleanFieldName (cleanFieldName "title" "text") "text" =
      cleanFieldName "title" "text" :=
  cleanFieldName_idem_of_no_suffix "title" "text" (fun suf hs => by
    have hsome : (some "_text" : Option String) = some suf := hs
    rw [← Option.some.inj hsome]
    decide)

/-! ## Concrete scenario A and the format dispatch -/

/-- Scenario A raw map: `Task` with a scalar `title`, a `user` reference
`assignee`, a multi-valued `tags`, a custom reference `owner_custom_x`
(not deleted) and a soft-deleted `temp_field`. -/
def scenarioA : RawTypeMap :=
  [("Task", ⟨some [
    ("title", ⟨some "text", false⟩),
    ("assignee", ⟨some "user", false⟩),
    ("tags", ⟨some "list.text", false⟩),
    ("owner_custom_x", ⟨some "custom.User", false⟩),
    ("temp_field", ⟨some "text", true⟩)]⟩)]

set_option maxRecDepth 32768 in
/-- C3: on scenario A the relational renderer emits exactly one `Task` table
whose lines after the three implicit columns are `title text`,
`assignee text [ref: > user._id]` and `owner text [ref: > User._id]`
(the raw name `owner_custom_x` truncated at `_custom`), with no line for
`tags` or `temp_field`. -/
theorem convertToDBML_scenarioA :
    convertToDBML scenarioA =
      "// Bubble App Database Schema\n\nTable Task \x7b\n  _id text [pk]\n  Created_Date timestamp\n  Modified_Date timestamp\n  title text\n  assignee text [ref: > user._id]\n  owner text [ref: > User._id]\n\x7d\n\n" ∧
    ¬ ("tags".data <:+: (convertToDBML scenarioA).data) ∧
    ¬ ("temp_field".data <:+: (convertToDBML scenarioA).data) := by
  refine ⟨rfl, by decide, by decide⟩

/-- C9: any format token other than `mermaid` and `json` (for example `xml`)
selects the relational-schema renderer — the dispatch falls through to
`convertToDBML` and signals no error. -/
theorem renderSchema_default_dbml (format : String) (dataTypes : RawTypeMap)
    (hm : format ≠ "mermaid") (hj : format ≠ "json") :
    renderSchema format dataTypes = convertToDBML dataTypes := by
  unfold renderSchema
  rw [if_neg hm, if_neg hj]

/-- Concrete instance of `renderSchema_default_dbml`: the unrecognized token
`xml` yields exactly the relational-schema output on scenario A. -/
theorem renderSchema_default_dbml_witness :
    ("xml" : String) ≠ "mermaid" ∧ ("xml" : String) ≠ "json" ∧
      renderSchema "xml" scenarioA = convertToDBML scenarioA :=
  ⟨by decide, by decide,
    renderSchema_default_dbml "xml" scenarioA (by decide) (by decide)⟩

/-- C10: a type whose raw info lacks the `%f3` key still renders: the
relational renderer emits its table block with exactly the three implicit
columns, the diagram renderer emits its entity block with no fields, and on
a singleton map each full renderer output is the header plus that block. -/
theorem render_table_without_f3 (tableName : String) :
    dbmlTable tableName ⟨none⟩ =
      ("Table " ++ tableName ++ " \x7b\n  _id text [pk]\n  Created_Date timestamp\n  Modified_Date timestamp\n") ++ "\x7d\n\n" ∧
    mermaidTable tableName ⟨none⟩ = ("  " ++ tableName ++ " \x7b\n") ++ "  \x7d\n" ∧
    convertToDBML [(tableName, ⟨none⟩)] =
      "// Bubble App Database Schema\n\n" ++ dbmlTable tableName ⟨none⟩ ∧
    convertToMermaid [(tableName, ⟨none⟩)] =
      "erDiagram\n" ++ mermaidTable tableName ⟨none⟩ :=
  ⟨rfl, rfl, rfl, rfl⟩

/-! ## Scalar type mapping of the relational renderer -/

/-- Modelled from the spec's scalar mapping table for the relational
renderer: declared `number` to `numeric`, `date` to `timestamp`,
`boolean` to `boolean`, anything else to `text`. -/
def specScalarDbType (t : String) : String :=
  if t = "number" then "numeric"
  else if t = "date" then "timestamp"
  else if t = "boolean" then "boolean"
  else "text"

/-- C6: every surviving scalar field (not deleted, non-empty declared type,
not a `custom.` reference, not the `user` sentinel, not a `list.` type) is
emitted by the relational renderer as one line whose db type is exactly the
spec's scalar mapping `specScalarDbType`. -/
theorem dbmlField_scalar (fieldName t : String)
    (h0 : t ≠ "")
    (hc : ¬ ("custom.".data <+: t.data))
    (hu : t ≠ "user")
    (hl : ¬ ("list.".data <+: t.data)) :
    dbmlField fieldName ⟨some t, false⟩ =
      "  " ++ cleanFieldName fieldName t ++ " " ++ specScalarDbType t ++ "\n" := by
  unfold dbmlField
  simp only []
  rw [if_neg h0, if_neg hc, if_neg hu, if_neg hl]
  rfl

/-- Concrete instance of `dbmlField_scalar`: a surviving `number` field named
`score` renders with db type `numeric`. -/
theorem dbmlField_scalar_witness :
    ("number" : String) ≠ "" ∧
    ¬ ("custom.".data <+: "number".data) ∧
    ("number" : String) ≠ "user" ∧
    ¬ ("list.".data <+: "number".data) ∧
    dbmlField "score" ⟨some "number", false⟩ =
      "  " ++ cleanFieldName "score" "number" ++ " " ++ specScalarDbType "number" ++ "\n" :=
  ⟨by decide, by decide, by decide, by decide,
    dbmlField_scalar "score" "number" (by decide) (by decide) (by decide) (by decide)⟩

/-! ## Order preservation of the block renderers -/

/-- Concatenation of a list of strings, in order. -/
def strJoin : List String → String
  | [] => ""
  | s :: rest => s ++ strJoin rest

theorem foldl_append_strJoin {α : Type} (f : α → String) :
    ∀ (l : List α) (init : String),
      l.foldl (fun acc x => acc ++ f x) init = init ++ strJoin (l.map f)
  | [], init => by
    simp only [List.foldl_nil, List.map_nil, strJoin]
    rw [String.append_empty]
  | x :: xs, init => by
    simp only [List.foldl_cons, List.map_cons, strJoin]
    rw [foldl_append_strJoin f xs (init ++ f x), String.append_assoc]

/-- C7: both block renderers factor as the format header followed by the
concatenation, in the input key order, of one independent block per type,
and each block factors as its table header followed by the concatenation,
in the input key order, of one independent chunk per declared field — so
permuting the input key order permutes the emitted blocks identically, with
no re-sorting. -/
theorem renderers_preserve_input_order (m : RawTypeMap) :
    convertToDBML m =
      "// Bubble App Database Schema\n\n" ++
        strJoin (m.map fun p => dbmlTable p.1 p.2) ∧
    convertToMermaid m =
      "erDiagram\n" ++ strJoin (m.map fun p => mermaidTable p.1 p.2) ∧
    (∀ tableName ti, dbmlTable tableName ti =
      ("Table " ++ tableName ++ " \x7b\n  _id text [pk]\n  Created_Date timestamp\n  Modified_Date timestamp\n") ++
        (strJoin ((fieldsOf ti).map fun p => dbmlField p.1 p.2) ++ "\x7d\n\n")) ∧
    (∀ tableName ti, mermaidTable tableName ti =
      ("  " ++ tableName ++ " \x7b\n") ++
        (strJoin ((fieldsOf ti).map fun p => mermaidField p.1 p.2) ++ "  \x7d\n")) := by
  refine ⟨?_, ?_, ?_, ?_⟩
  · exact foldl_append_strJoin _ m _
  · exact foldl_append_strJoin _ m _
  · intro tableName ti
    unfold dbmlTable
    rw [foldl_append_strJoin (fun p => dbmlField p.1 p.2) (fieldsOf ti), String.append_assoc]
  · intro tableName ti
    unfold mermaidTable
    rw [foldl_append_strJoin (fun p => mermaidField p.1 p.2) (fieldsOf ti), String.append_assoc]

/-! ## Fields that contribute nothing -/

/-- The raw map with each type's field map restricted to the fields
satisfying `p`. -/
def filterFields (p : String → RawFieldInfo → Bool) (m : RawTypeMap) : RawTypeMap :=
  m.map fun t => (t.1, ⟨some ((fieldsOf t.2).filter fun f => p f.1 f.2)⟩)

theorem foldl_append_filter {α : Type} (g : α → String) (p : α → Bool)
    (hg : ∀ x, p x = false → g x = "") :
    ∀ (l : List α) (init : String),
      (l.filter p).foldl (fun acc x => acc ++ g x) init =
        l.foldl (fun acc x => acc ++ g x) init
  | [], _ => rfl
  | x :: xs, init => by
    by_cases hp : p x = true
    · rw [List.filter_cons_of_pos hp]
      simp only [List.foldl_cons]
      exact foldl_append_filter g p hg xs (init ++ g x)
    · have hp' : p x = false := by simpa using hp
      rw [List.filter_cons_of_neg (by simp [hp'])]
      simp only [List.foldl_cons]
      rw [hg x hp', String.append_empty]
      exact foldl_append_filter g p hg xs init

theorem dbmlTable_filterFields (p : String → RawFieldInfo → Bool)
    (hg : ∀ fn fi, p fn fi = false → dbmlField fn fi = "")
    (tableName : String) (ti : RawTypeInfo) :
    dbmlTable tableName ⟨some ((fieldsOf ti).filter fun f => p f.1 f.2)⟩ =
      dbmlTable tableName ti := by
  unfold dbmlTable
  congr 1
  exact foldl_append_filter (fun f => dbmlField f.1 f.2) (fun f => p f.1 f.2)
    (fun x hx => hg x.1 x.2 hx) (fieldsOf ti) _

theorem mermaidTable_filterFields (p : String → RawFieldInfo → Bool)
    (hg : ∀ fn fi, p fn fi = false → mermaidField fn fi = "")
    (tableName : String) (ti : RawTypeInfo) :
    mermaidTable tableName ⟨some ((fieldsOf ti).filter fun f => p f.1 f.2)⟩ =
      mermaidTable tableName ti := by
  unfold mermaidTable
  congr 1
  exact foldl_append_filter (fun f => mermaidField f.1 f.2) (fun f => p f.1 f.2)
    (fun x hx => hg x.1 x.2 hx) (fieldsOf ti) _

theorem convertToDBML_filterFields (p : String → RawFieldInfo → Bool)
    (hg : ∀ fn fi, p fn fi = false → dbmlField fn fi = "") (m : RawTypeMap) :
    convertToDBML (filterFields p m) = convertToDBML m := by
  unfold convertToDBML filterFields
  rw [List.foldl_map]
  have he : (fun (acc : String) (t : String × RawTypeInfo) =>
      acc ++ dbmlTable t.1 ⟨some ((fieldsOf t.2).filter fun f => p f.1 f.2)⟩) =
      fun acc t => acc ++ dbmlTable t.1 t.2 := by
    funext acc t
    rw [dbmlTable_filterFields p hg t.1 t.2]
  rw [he]

theorem convertToMermaid_filterFields (p : String → RawFieldInfo → Bool)
    (hg : ∀ fn fi, p fn fi = false → mermaidField fn fi = "") (m : RawTypeMap) :
    convertToMermaid (filterFields p m) = convertToMermaid m := by
  unfold convertToMermaid filterFields
  rw [List.foldl_map]
  have he : (fun (acc : String) (t : String × RawTypeInfo) =>
      acc ++ mermaidTable t.1 ⟨some ((fieldsOf t.2).filter fun f => p f.1 f.2)⟩) =
      fun acc t => acc ++ mermaidTable t.1 t.2 := by
    funext acc t
    rw [mermaidTable_filterFields p hg t.1 t.2]
  rw [he]

theorem dbmlField_of_deleted (fn : String) (fi : RawFieldInfo)
    (h : (!fi.del) = false) : dbmlField fn fi = "" := by
  have hd : fi.del = true := by simpa using h
  unfold dbmlField
  rw [if_pos hd]

theorem mermaidField_of_deleted (fn : String) (fi : RawFieldInfo)
    (h : (!fi.del) = false) : mermaidField fn fi = "" := by
  have hd : fi.del = true := by simpa using h
  unfold mermaidField
  rw [if_pos hd]

/-- C1 (amended): soft-deleted fields contribute nothing to the relational
and diagram renderers — restricting every field map to its non-deleted
fields leaves both outputs unchanged. The raw/structured renderer is the
exception: it serializes the raw map as-is, deleted fields included. -/
theorem deleted_fields_contribute_nothing (m : RawTypeMap) :
    convertToDBML (filterFields (fun _ fi => !fi.del) m) = convertToDBML m ∧
    convertToMermaid (filterFields (fun _ fi => !fi.del) m) = convertToMermaid m :=
  ⟨convertToDBML_filterFields _ dbmlField_of_deleted m,
   convertToMermaid_filterFields _ mermaidField_of_deleted m⟩

set_option maxRecDepth 32768 in
/-- Counterexample to C1 as stated: the raw/structured renderer (the `json`
format branch, `JSON.stringify(dataTypes, null, 2)`) emits the name of a
field whose deleted flag is true — here `temp_field`, deleted, appears in
the rendered output. -/
theorem raw_renderer_includes_deleted :
    (RawFieldInfo.mk (some "text") true).del = true ∧
    "temp_field".data <:+:
      (renderSchema "json"
        [("T", ⟨some [("temp_field", ⟨some "text", true⟩)]⟩)]).data :=
  ⟨rfl, by decide⟩

/-- Test for a declared `list.` type (the multi-valued relation marker). -/
def isListField (fi : RawFieldInfo) : Bool :=
  match fi.v with
  | some t => decide ("list.".data <+: t.data)
  | none => false

theorem dbmlField_of_list (fn : String) (fi : RawFieldInfo)
    (h : (!isListField fi) = false) : dbmlField fn fi = "" := by
  have hl : isListField fi = true := by simpa using h
  obtain ⟨v, del⟩ := fi
  cases del
  · cases v with
    | none => exact absurd hl (by simp [isListField])
    | some t =>
      have hpre : "list.".data <+: t.data := by
        have := hl
        simp only [isListField, decide_eq_true_eq] at this
        exact this
      unfold dbmlField
      rw [if_neg (show ¬ (false = true) by simp)]
      simp only []
      by_cases h0 : t = ""
      · rw [if_pos h0]
      · rw [if_neg h0]
        rw [if_neg (fun hc => absurd
          (List.prefix_of_prefix_length_le hpre hc (by decide)) (by decide))]
        rw [if_neg (fun hu => by subst hu; exact absurd hpre (by decide))]
        rw [if_pos hpre]
  · unfold dbmlField
    rw [if_pos rfl]

/-- C2 (amended): in the relational renderer, a field whose declared type
has the `list.` marker contributes no column and no relationship — dropping
all such fields from the raw map leaves the DBML output unchanged (the DBML
renderer emits relationships only inline, inside field chunks). The diagram
renderer, by contrast, does render `list.` fields, as a `string` column. -/
theorem list_fields_contribute_nothing_dbml (m : RawTypeMap) :
    convertToDBML (filterFields (fun _ fi => !isListField fi) m) =
      convertToDBML m :=
  convertToDBML_filterFields _ dbmlField_of_list m

set_option maxRecDepth 32768 in
/-- Counterexample to C2 as stated: the diagram renderer emits a column for
a `list.`-typed field — on a map with the single field `tags` of declared
type `list.text`, the Mermaid output contains the column line `string tags`. -/
theorem mermaid_renders_list_field :
    convertToMermaid [("T", ⟨some [("tags", ⟨some "list.text", false⟩)]⟩)] =
      "erDiagram\n  T \x7b\n    string tags\n  \x7d\n" ∧
    "string tags".data <:+:
      (convertToMermaid [("T", ⟨some [("tags", ⟨some "list.text", false⟩)]⟩)]).data :=
  ⟨rfl, by decide⟩

/-! ## Round trip of the raw renderer -/

theorem skipWs_cons_not {c : Char} (h : isWsChar c = false) (s : List Char) :
    skipWs (c :: s) = c :: s := by
  unfold skipWs
  rw [if_neg (by simp [h])]

theorem skipWs_cons_ws {c : Char} (h : isWsChar c = true) (s : List Char) :
    skipWs (c :: s) = skipWs s := by
  conv_lhs => rw [skipWs]
  rw [if_pos h]

theorem skipWs_append_ws : ∀ ws : List Char, ws.all isWsChar = true →
    ∀ s, skipWs (ws ++ s) = skipWs s
  | [], _, s => rfl
  | c :: ws', h, s => by
    rw [List.all_cons, Bool.and_eq_true] at h
    show skipWs (c :: (ws' ++ s)) = skipWs s
    rw [skipWs_cons_ws h.1]
    exact skipWs_append_ws ws' h.2 s

theorem indentChars_all_ws (n : Nat) : (indentChars n).all isWsChar = true := by
  rw [List.all_eq_true]
  intro x hx
  rw [List.eq_of_mem_replicate hx]
  decide

theorem hexVal_hexDigit : ∀ m : Nat, m < 16 → hexVal (hexDigit m) = some m := by
  decide

theorem parseStringBody_escape :
    ∀ cs R : List Char,
      parseStringBody (escapeString cs ++ '"' :: R) = some (cs, R)
  | [], R => by
    show parseStringBody ('"' :: R) = some ([], R)
    rw [parseStringBody.eq_def]
    simp
  | c :: cs, R => by
    have ih := parseStringBody_escape cs R
    have hesc : escapeString (c :: cs) = escapeChar c ++ escapeString cs := by
      simp [escapeString]
    rw [hesc, List.append_assoc]
    by_cases h1 : c = '"'
    · subst h1
      have hE : escapeChar '"' = ['\\', '"'] := by decide
      rw [hE]
      simp only [parseStringBody, List.cons_append, List.nil_append]
      simp [unescapeChar, ih]
    · by_cases h2 : c = '\\'
      · subst h2
        have hE : escapeChar '\\' = ['\\', '\\'] := by decide
        rw [hE]
        simp only [parseStringBody, List.cons_append, List.nil_append]
        simp [unescapeChar, ih]
      · by_cases h3 : c = Char.ofNat 8
        · subst h3
          have hE : escapeChar (Char.ofNat 8) = ['\\', 'b'] := by decide
          have hU : unescapeChar 'b' = some (Char.ofNat 8) := by decide
          rw [hE]
          simp only [parseStringBody, List.cons_append, List.nil_append]
          simp [hU, ih]
        · by_cases h4 : c = '\t'
          · subst h4
            have hE : escapeChar '\t' = ['\\', 't'] := by decide
            have hU : unescapeChar 't' = some '\t' := by decide
            rw [hE]
            simp only [parseStringBody, List.cons_append, List.nil_append]
            simp [hU, ih]
          · by_cases h5 : c = '\n'
            · subst h5
              have hE : escapeChar '\n' = ['\\', 'n'] := by decide
              have hU : unescapeChar 'n' = some '\n' := by decide
              rw [hE]
              simp only [parseStringBody, List.cons_append, List.nil_append]
              simp [hU, ih]
            · by_cases h6 : c = Char.ofNat 12
              · subst h6
                have hE : escapeChar (Char.ofNat 12) = ['\\', 'f'] := by decide
                have hU : unescapeChar 'f' = some (Char.ofNat 12) := by decide
                rw [hE]
                simp only [parseStringBody, List.cons_append, List.nil_append]
                simp [hU, ih]
              · by_cases h7 : c = '\r'
                · subst h7
                  have hE : escapeChar '\r' = ['\\', 'r'] := by decide
                  have hU : unescapeChar 'r' = some '\r' := by decide
                  rw [hE]
                  simp only [parseStringBody, List.cons_append, List.nil_append]
                  simp [hU, ih]
                · by_cases h8 : c.toNat < 32
                  · have hE : escapeChar c =
                        ['\\', 'u', '0', '0',
                          hexDigit (c.toNat / 16), hexDigit (c.toNat % 16)] := by
                      unfold escapeChar
                      rw [if_neg h1, if_neg h2, if_neg h3, if_neg h4, if_neg h5,
                        if_neg h6, if_neg h7, if_pos h8]
                    have e0 : hexVal '0' = some 0 := by decide
                    have e1 : hexVal (hexDigit (c.toNat / 16)) =
                        some (c.toNat / 16) := hexVal_hexDigit _ (by omega)
                    have e2 : hexVal (hexDigit (c.toNat % 16)) =
                        some (c.toNat % 16) := hexVal_hexDigit _ (by omega)
                    rw [hE]
                    simp only [parseStringBody, List.cons_append, List.nil_append]
                    simp [e0, e1, e2, ih]
                    rw [show 16 * (c.toNat / 16) + c.toNat % 16 = c.toNat from by
                      omega]
                    rw [Char.ofNat_toNat]
                  · have hE : escapeChar c = [c] := by
                      unfold escapeChar
                      rw [if_neg h1, if_neg h2, if_neg h3, if_neg h4, if_neg h5,
                        if_neg h6, if_neg h7, if_neg h8]
                    rw [hE]
                    simp only [List.cons_append, List.nil_append]
                    conv_lhs => rw [parseStringBody.eq_def]
                    simp only []
                    rw [if_neg h1, if_neg h2, ih]

mutual
/-- Recursion fuel sufficient to parse the printed form of a value. -/
def fuelV : Jval → Nat
  | .str _ => 1
  | .bool _ => 1
  | .obj ms => fuelM ms + 1

/-- Recursion fuel sufficient to parse the printed form of a member list. -/
def fuelM : Jmembers → Nat
  | .nil => 0
  | .cons _ v ms => fuelV v + fuelM ms + 1
end

theorem parseVal_append_ws (fuel : Nat) (ws s : List Char)
    (h : ws.all isWsChar = true) :
    parseVal fuel (ws ++ s) = parseVal fuel s := by
  cases fuel with
  | zero => rfl
  | succ f =>
    simp only [parseVal]
    rw [skipWs_append_ws ws h s]

theorem parseMembers_append_ws (fuel : Nat) (ws s : List Char)
    (h : ws.all isWsChar = true) :
    parseMembers fuel (ws ++ s) = parseMembers fuel s := by
  cases fuel with
  | zero => rfl
  | succ f =>
    simp only [parseMembers]
    rw [skipWs_append_ws ws h s]

theorem printMembers_shape (k : String) (v : Jval) (ms : Jmembers) (d : Nat) :
    ∃ Y, printMembers (.cons k v ms) d = indentChars (2 * d) ++ '"' :: Y := by
  cases ms with
  | nil =>
    exact ⟨escapeString k.data ++ '"' :: ':' :: ' ' :: printVal v d, rfl⟩
  | cons k2 v2 r =>
    refine ⟨escapeString k.data ++ '"' :: ':' :: ' ' ::
      (printVal v d ++ ',' :: '\n' :: printMembers (.cons k2 v2 r) d), ?_⟩
    show (indentChars (2 * d) ++
        '"' :: (escapeString k.data ++ '"' :: ':' :: ' ' :: printVal v d)) ++
        ',' :: '\n' :: printMembers (.cons k2 v2 r) d = _
    simp [List.append_assoc]

theorem parseVal_cons_ws {c : Char} (h : isWsChar c = true) (fuel : Nat)
    (s : List Char) : parseVal fuel (c :: s) = parseVal fuel s := by
  cases fuel with
  | zero => rfl
  | succ f =>
    simp only [parseVal]
    rw [skipWs_cons_ws h]

theorem parseMembers_cons_ws {c : Char} (h : isWsChar c = true) (fuel : Nat)
    (s : List Char) : parseMembers fuel (c :: s) = parseMembers fuel s := by
  cases fuel with
  | zero => rfl
  | succ f =>
    simp only [parseMembers]
    rw [skipWs_cons_ws h]

mutual
theorem parse_printVal : ∀ (v : Jval) (fuel d : Nat) (rest : List Char),
    fuelV v ≤ fuel →
    parseVal fuel (printVal v d ++ rest) = some (v, rest)
  | .str s, fuel, d, rest, h => by
    cases fuel with
    | zero => simp only [fuelV] at h; omega
    | succ f =>
      have hnorm : printVal (.str s) d ++ rest =
          '"' :: (escapeString s.data ++ '"' :: rest) := by
        simp [printVal, List.append_assoc]
      rw [hnorm]
      show (match parseStringBody (escapeString s.data ++ '"' :: rest) with
            | some (cs, r) => some (Jval.str ⟨cs⟩, r)
            | none => none) = some (Jval.str s, rest)
      rw [parseStringBody_escape s.data rest]
  | .bool true, fuel, _, rest, h => by
    cases fuel with
    | zero => simp only [fuelV] at h; omega
    | succ f => rfl
  | .bool false, fuel, _, rest, h => by
    cases fuel with
    | zero => simp only [fuelV] at h; omega
    | succ f => rfl
  | .obj .nil, fuel, _, rest, h => by
    cases fuel with
    | zero => simp only [fuelV] at h; omega
    | succ f => rfl
  | .obj (.cons k v ms), fuel, d, rest, h => by
    cases fuel with
    | zero => simp only [fuelV, fuelM] at h; omega
    | succ f =>
      have hf : fuelM (Jmembers.cons k v ms) ≤ f := by
        simp only [fuelV] at h
        omega
      obtain ⟨Y, hY⟩ := printMembers_shape k v ms (d + 1)
      have hws1 : ('\n' :: indentChars (2 * d)).all isWsChar = true := by
        simp [List.all_cons, indentChars_all_ws, isWsChar]
      have hnorm : printVal (.obj (.cons k v ms)) d ++ rest =
          '{' :: '\n' :: (printMembers (.cons k v ms) (d + 1) ++
            (('\n' :: indentChars (2 * d)) ++ '}' :: rest)) := by
        simp [printVal, List.append_assoc]
      have hskip : skipWs ('\n' :: (printMembers (.cons k v ms) (d + 1) ++
            (('\n' :: indentChars (2 * d)) ++ '}' :: rest))) =
          '"' :: (Y ++ (('\n' :: indentChars (2 * d)) ++ '}' :: rest)) := by
        rw [skipWs_cons_ws (by decide), hY, List.append_assoc, List.cons_append,
          skipWs_append_ws _ (indentChars_all_ws _), skipWs_cons_not (by decide)]
      have hpm : parseMembers f
            ('"' :: (Y ++ (('\n' :: indentChars (2 * d)) ++ '}' :: rest))) =
          some (Jmembers.cons k v ms, '}' :: rest) := by
        have hIH := parse_printMembers (Jmembers.cons k v ms) f (d + 1)
          ('\n' :: indentChars (2 * d)) rest (fun hc => Jmembers.noConfusion hc)
          hf hws1
        rw [hY, List.append_assoc, List.cons_append,
          parseMembers_append_ws f _ _ (indentChars_all_ws _)] at hIH
        exact hIH
      rw [hnorm]
      show (match skipWs ('\n' :: (printMembers (.cons k v ms) (d + 1) ++
              (('\n' :: indentChars (2 * d)) ++ '}' :: rest))) with
            | '}' :: r => some (Jval.obj .nil, r)
            | r2 =>
              match parseMembers f r2 with
              | some (ms2, r3) =>
                match skipWs r3 with
                | '}' :: r4 => some (Jval.obj ms2, r4)
                | _ => none
              | none => none) = some (Jval.obj (.cons k v ms), rest)
      rw [hskip]
      show (match parseMembers f
              ('"' :: (Y ++ (('\n' :: indentChars (2 * d)) ++ '}' :: rest))) with
            | some (ms2, r3) =>
              match skipWs r3 with
              | '}' :: r4 => some (Jval.obj ms2, r4)
              | _ => none
            | none => none) = some (Jval.obj (.cons k v ms), rest)
      rw [hpm]
      rfl

theorem parse_printMembers : ∀ (ms : Jmembers) (fuel d : Nat) (ws rest : List Char),
    ms ≠ .nil → fuelM ms ≤ fuel → ws.all isWsChar = true →
    parseMembers fuel (printMembers ms d ++ (ws ++ '}' :: rest)) =
      some (ms, '}' :: rest)
  | .nil, _, _, _, _, hne, _, _ => absurd rfl hne
  | .cons k v .nil, fuel, d, ws, rest, _, hf, hws => by
    cases fuel with
    | zero => simp only [fuelM, fuelV] at hf; omega
    | succ f =>
      have hfv : fuelV v ≤ f := by
        simp only [fuelM, fuelV] at hf
        omega
      have hnorm : printMembers (.cons k v .nil) d ++ (ws ++ '}' :: rest) =
          indentChars (2 * d) ++ ('"' :: (escapeString k.data ++
            '"' :: (':' :: ' ' :: (printVal v d ++ (ws ++ '}' :: rest))))) := by
        simp [printMembers, List.append_assoc]
      rw [hnorm, parseMembers_append_ws _ _ _ (indentChars_all_ws _)]
      show (match parseStringBody (escapeString k.data ++
              '"' :: (':' :: ' ' :: (printVal v d ++ (ws ++ '}' :: rest)))) with
            | some (kcs, r1) =>
              match skipWs r1 with
              | ':' :: r2 =>
                match parseVal f r2 with
                | some (v2, r3) =>
                  match skipWs r3 with
                  | ',' :: r4 =>
                    match parseMembers f r4 with
                    | some (ms2, r5) => some (Jmembers.cons ⟨kcs⟩ v2 ms2, r5)
                    | none => none
                  | r4 => some (Jmembers.cons ⟨kcs⟩ v2 .nil, r4)
                | none => none
              | _ => none
            | none => none) = some (Jmembers.cons k v .nil, '}' :: rest)
      rw [parseStringBody_escape k.data]
      show (match parseVal f (' ' :: (printVal v d ++ (ws ++ '}' :: rest))) with
            | some (v2, r3) =>
              match skipWs r3 with
              | ',' :: r4 =>
                match parseMembers f r4 with
                | some (ms2, r5) => some (Jmembers.cons k v2 ms2, r5)
                | none => none
              | r4 => some (Jmembers.cons k v2 .nil, r4)
            | none => none) = some (Jmembers.cons k v .nil, '}' :: rest)
      rw [parseVal_cons_ws (by decide), parse_printVal v f d _ hfv]
      show (match skipWs (ws ++ '}' :: rest) with
            | ',' :: r4 =>
              match parseMembers f r4 with
              | some (ms2, r5) => some (Jmembers.cons k v ms2, r5)
              | none => none
            | r4 => some (Jmembers.cons k v .nil, r4)) =
          some (Jmembers.cons k v .nil, '}' :: rest)
      rw [skipWs_append_ws _ hws, skipWs_cons_not (by decide)]
      rfl
  | .cons k v (.cons k2 v2 r), fuel, d, ws, rest, _, hf, hws => by
    cases fuel with
    | zero => simp only [fuelM, fuelV] at hf; omega
    | succ f =>
      have hfv : fuelV v ≤ f := by
        simp only [fuelM, fuelV] at hf
        omega
      have hfm : fuelM (Jmembers.cons k2 v2 r) ≤ f := by
        simp only [fuelM, fuelV] at hf ⊢
        omega
      have hnorm : printMembers (.cons k v (.cons k2 v2 r)) d ++ (ws ++ '}' :: rest) =
          indentChars (2 * d) ++ ('"' :: (escapeString k.data ++
            '"' :: (':' :: ' ' :: (printVal v d ++
              (',' :: '\n' :: (printMembers (.cons k2 v2 r) d ++
                (ws ++ '}' :: rest))))))) := by
        simp [printMembers, List.append_assoc]
      rw [hnorm, parseMembers_append_ws _ _ _ (indentChars_all_ws _)]
      show (match parseStringBody (escapeString k.data ++
              '"' :: (':' :: ' ' :: (printVal v d ++
                (',' :: '\n' :: (printMembers (.cons k2 v2 r) d ++
                  (ws ++ '}' :: rest)))))) with
            | some (kcs, r1) =>
              match skipWs r1 with
              | ':' :: r2 =>
                match parseVal f r2 with
                | some (v3, r3) =>
                  match skipWs r3 with
                  | ',' :: r4 =>
                    match parseMembers f r4 with
                    | some (ms2, r5) => some (Jmembers.cons ⟨kcs⟩ v3 ms2, r5)
                    | none => none
                  | r4 => some (Jmembers.cons ⟨kcs⟩ v3 .nil, r4)
                | none => none
              | _ => none
            | none => none) =
          some (Jmembers.cons k v (.cons k2 v2 r), '}' :: rest)
      rw [parseStringBody_escape k.data]
      show (match parseVal f (' ' :: (printVal v d ++
              (',' :: '\n' :: (printMembers (.cons k2 v2 r) d ++
                (ws ++ '}' :: rest))))) with
            | some (v3, r3) =>
              match skipWs r3 with
              | ',' :: r4 =>
                match parseMembers f r4 with
                | some (ms2, r5) => some (Jmembers.cons k v3 ms2, r5)
                | none => none
              | r4 => some (Jmembers.cons k v3 .nil, r4)
            | none => none) =
          some (Jmembers.cons k v (.cons k2 v2 r), '}' :: rest)
      rw [parseVal_cons_ws (by decide), parse_printVal v f d _ hfv]
      show (match parseMembers f ('\n' :: (printMembers (.cons k2 v2 r) d ++
              (ws ++ '}' :: rest))) with
            | some (ms2, r5) => some (Jmembers.cons k v ms2, r5)
            | none => none) =
          some (Jmembers.cons k v (.cons k2 v2 r), '}' :: rest)
      rw [parseMembers_cons_ws (by decide),
        parse_printMembers (Jmembers.cons k2 v2 r) f d ws rest
          (fun hc => Jmembers.noConfusion hc) hfm hws]
end

mutual
theorem fuelV_le_len : ∀ (v : Jval) (d : Nat), fuelV v ≤ (printVal v d).length
  | .str s, d => by
    simp only [printVal, fuelV, List.length_cons, List.length_append]
    omega
  | .bool true, _ => by
    simp only [printVal, fuelV, List.length_cons]
    omega
  | .bool false, _ => by
    simp only [printVal, fuelV, List.length_cons]
    omega
  | .obj .nil, _ => by
    simp only [printVal, fuelV, fuelM, List.length_cons]
    omega
  | .obj (.cons k v ms), d => by
    have ih := fuelM_le_len (Jmembers.cons k v ms) (d + 1)
    simp only [printVal, fuelV, List.length_cons, List.length_append]
    omega

theorem fuelM_le_len : ∀ (ms : Jmembers) (d : Nat),
    fuelM ms ≤ (printMembers ms d).length
  | .nil, _ => by
    simp only [printMembers, fuelM, List.length_nil]
    omega
  | .cons k v .nil, d => by
    have ih := fuelV_le_len v d
    simp only [printMembers, fuelM, fuelV, List.length_append, List.length_cons]
    omega
  | .cons k v (.cons k2 v2 r), d => by
    have ihv := fuelV_le_len v d
    have ihm := fuelM_le_len (Jmembers.cons k2 v2 r) d
    rw [show fuelM (Jmembers.cons k v (Jmembers.cons k2 v2 r)) =
      fuelV v + fuelM (Jmembers.cons k2 v2 r) + 1 from rfl]
    simp only [printMembers, List.length_append, List.length_cons]
    omega
end

/-- C8: the raw renderer is lossless. Parsing any value's
`JSON.stringify(·, null, 2)` output recovers the value exactly; on a raw
type map the `json` format branch is exactly that serialization of the map,
so parsing its output back yields the original raw type map, with only
formatting changed. -/
theorem json_raw_renderer_roundtrip (v : Jval) (m : RawTypeMap) :
    jsonParse (jsonStringify v) = some v ∧
    renderSchema "json" m = jsonStringify (toJval m) ∧
    jsonParse (renderSchema "json" m) = some (toJval m) := by
  have main : ∀ w : Jval, jsonParse (jsonStringify w) = some w := by
    intro w
    have hlen : fuelV w ≤ (printVal w 0).length + 1 :=
      le_trans (fuelV_le_len w 0) (Nat.le_succ _)
    have hp := parse_printVal w ((printVal w 0).length + 1) 0 [] hlen
    rw [List.append_nil] at hp
    show (match parseVal ((printVal w 0).length + 1) (printVal w 0) with
          | some (v2, rest) => if skipWs rest = [] then some v2 else none
          | none => none) = some w
    rw [hp]
    rfl
  refine ⟨main v, rfl, ?_⟩
  rw [show renderSchema "json" m = jsonStringify (toJval m) from rfl]
  exact main (toJval m)
